import Mathlib

/-!
Verification development for the github-pr-dashboard repository.

The embedding covers:
* `app/lib/github.ts` — the PR aggregator `fetchOpenPRs`: paginated GraphQL
  search walk, cross-page/cross-query URL deduplication, normalization of raw
  nodes into canonical `PullRequest` records, and the final sort by update time.
* `app/lib/session.ts` — the cookie session codec built from
  `btoa(JSON.stringify(data))` and `JSON.parse(atob(cookie))`, modelled down to
  the base64 codec and a JSON printer/parser, with `Option` capturing thrown
  exceptions (`none` = throw).
* the auth callback route loader (token exchange failure path).

External environment functions of the JavaScript host (the `fetch` of each
GraphQL page, `new Date(…).getTime()`) are parameters of the embedded
functions; `Option` return types model exceptions/divergence.
-/

namespace PRDash

/-- JS `x || d` for an optional string `x`: `undefined`/`null` and the empty
string are falsy, so they yield the default `d`. -/
def jsOr (o : Option String) (d : String) : String :=
  match o with
  | none => d
  | some s => if s = "" then d else s

/-- JS truthiness of an optional string (`undefined`/`null`/`""` are falsy). -/
def jsTruthy (o : Option String) : Bool :=
  match o with
  | none => false
  | some s => s ≠ ""

/-! ## Raw GraphQL search nodes (`app/lib/github.ts`, SEARCH_QUERY response) -/

/-- The `author { login avatarUrl }` object of a raw search node. -/
structure RawAuthor where
  login : String
  avatarUrl : String
deriving DecidableEq

/-- One entry of `commits(last: 1).nodes`: `statusCheckRollup` is the rollup
state string when the rollup is present, `none` when absent. -/
structure RawCommit where
  statusCheckRollup : Option String
deriving DecidableEq

/-- A raw PR node as delivered by the GraphQL search response.  Fields the
code accesses defensively (`?.` / `||`) are `Option`s; `url` is an `Option`
because the code guards `!node.url` (absent or empty). -/
structure RawNode where
  title : String
  url : Option String
  number : Nat
  isDraft : Bool
  headRefName : Option String
  createdAt : String
  updatedAt : String
  author : Option RawAuthor
  repoNameWithOwner : String
  reviewDecision : Option String
  commits : List RawCommit
deriving DecidableEq

/-- The canonical `PullRequest` record of `app/lib/github.ts`. -/
structure PullRequest where
  title : String
  url : String
  repoName : String
  author : String
  authorAvatar : String
  createdAt : String
  updatedAt : String
  statusState : String
  reviewDecision : String
  isDraft : Bool
  number : Nat
  branch : String
deriving DecidableEq

/-- The optional chain `node.commits?.nodes?.[0]?.commit?.statusCheckRollup?.state`. -/
def statusRollupOf (n : RawNode) : Option String :=
  n.commits.head?.bind RawCommit.statusCheckRollup

/-- JS `String.prototype.toLowerCase()` (the rollup states it is applied to
are ASCII enum words). -/
def toLowerStr (s : String) : String := String.mk (s.data.map Char.toLower)

/-- Normalization of one accepted raw node into a `PullRequest`
(`allPRs.push({...})` in `fetchOpenPRs`, lines 87–101). -/
def normalizeNode (n : RawNode) : PullRequest :=
  { title := n.title
    url := n.url.getD ""
    number := n.number
    repoName := n.repoNameWithOwner
    author := jsOr (n.author.map RawAuthor.login) "unknown"
    authorAvatar := jsOr (n.author.map RawAuthor.avatarUrl) ""
    createdAt := n.createdAt
    updatedAt := n.updatedAt
    statusState := jsOr ((statusRollupOf n).map toLowerStr) "none"
    reviewDecision := jsOr n.reviewDecision ""
    isDraft := n.isDraft
    branch := jsOr n.headRefName "unknown" }

/-- The response of one page request of the GraphQL walk:
`transportError status` models `!resp.ok` (HTTP status), `apiError msg`
models a `json.errors` payload, `success nodes hasNextPage endCursor`
models `json.data.search`. -/
inductive PageResult where
  | transportError (status : Nat)
  | apiError (msg : String)
  | success (nodes : List RawNode) (hasNextPage : Bool) (endCursor : Option String)
deriving DecidableEq

/-- The accumulator of `fetchOpenPRs`: the `seen` URL set and the `allPRs`
output list. -/
structure FetchState where
  seen : List String
  allPRs : List PullRequest
deriving DecidableEq

/-- The per-node body of the loop:
`if (!node.url || seen.has(node.url)) continue; seen.add(node.url); allPRs.push(...)`. -/
def processNode (s : FetchState) (n : RawNode) : FetchState :=
  match n.url with
  | none => s
  | some u =>
    if u = "" ∨ u ∈ s.seen then s
    else ⟨u :: s.seen, s.allPRs ++ [normalizeNode n]⟩

/-- The `while (hasNext)` page loop for one query.  `page q cursor` is the
host `fetch` of one page; `fuel` bounds the number of iterations modelled
(`none` = the loop did not finish within `fuel` requests). -/
def loopPages (page : String → Option String → PageResult) (q : String) :
    Nat → Option String → FetchState → Option (Except String FetchState)
  | 0, _, _ => none
  | fuel + 1, cursor, s =>
    match page q cursor with
    | .transportError status => some (.error ("GitHub API error: " ++ toString status))
    | .apiError msg => some (.error msg)
    | .success nodes hasNext endC =>
      let s2 := nodes.foldl processNode s
      if hasNext then loopPages page q fuel endC s2 else some (.ok s2)

/-- The sequence of page responses the walk for one query receives: the same
traversal as `loopPages`, recording each response. -/
def walkResponses (page : String → Option String → PageResult) (q : String) :
    Nat → Option String → List PageResult
  | 0, _ => []
  | fuel + 1, cursor =>
    match page q cursor with
    | .success nodes hasNext endC =>
      .success nodes hasNext endC ::
        (if hasNext then walkResponses page q fuel endC else [])
    | r => [r]

/-- The `for (const q of queries)` loop over configured query strings. -/
def runQueries (page : String → Option String → PageResult) (fuel : Nat) :
    List String → FetchState → Option (Except String FetchState)
  | [], s => some (.ok s)
  | q :: qs, s =>
    match loopPages page q fuel none s with
    | none => none
    | some (.error e) => some (.error e)
    | some (.ok s2) => runQueries page fuel qs s2

/-- Model of `allPRs.sort((a, b) => new Date(b.updatedAt).getTime() - new Date(a.updatedAt).getTime())`:
a comparator sort placing larger `getTime` values first.  `getTime` is the
host's `new Date(…).getTime()`. -/
def sortPRs (getTime : String → Int) (l : List PullRequest) : List PullRequest :=
  l.insertionSort (fun a b => getTime b.updatedAt ≤ getTime a.updatedAt)

/-- The function `fetchOpenPRs` generalized over the configured query list (the body of the
source function is this loop over whatever `queries` holds). -/
def fetchOpenPRsWith (page : String → Option String → PageResult)
    (getTime : String → Int) (fuel : Nat) (qs : List String) :
    Option (Except String (List PullRequest)) :=
  match runQueries page fuel qs ⟨[], []⟩ with
  | none => none
  | some (.error e) => some (.error e)
  | some (.ok s) => some (.ok (sortPRs getTime s.allPRs))

/-- The single search query string `fetchOpenPRs` configures. -/
def mainQuery : String := "is:open is:pr involves:@me archived:false"

/-- The configured search queries of `fetchOpenPRs`. -/
def queries : List String := [mainQuery]

/-- Model of `fetchOpenPRs(accessToken)`: the full aggregation over the configured
queries.  The access token only feeds the request headers, which live inside
the `page` environment function. -/
def fetchOpenPRs (page : String → Option String → PageResult)
    (getTime : String → Int) (fuel : Nat) : Option (Except String (List PullRequest)) :=
  fetchOpenPRsWith page getTime fuel queries

/-! ## Base64 (`btoa` / `atob` of the Workers runtime) -/

/-- The standard base64 alphabet. -/
def b64Chars : List Char :=
  "ABCDEFGHIJKLMNOPQRSTUVWXYZabcdefghijklmnopqrstuvwxyz0123456789+/".data

/-- The alphabet character of a 6-bit value. -/
def b64Char (n : Nat) : Char := b64Chars.getD n 'A'

/-- The 6-bit value of an alphabet character (`none` for a non-alphabet
character). -/
def b64Val (c : Char) : Option Nat := b64Chars.findIdx? (· = c)

/-- Base64 encoding of a byte sequence, with `=` padding — the output shape of
`btoa`. -/
def btoaBytes : List Nat → List Char
  | [] => []
  | [a] => [b64Char (a / 4), b64Char (a % 4 * 16), '=', '=']
  | [a, b] => [b64Char (a / 4), b64Char (a % 4 * 16 + b / 16), b64Char (b % 16 * 4), '=']
  | a :: b :: c :: rest =>
    b64Char (a / 4) :: b64Char (a % 4 * 16 + b / 16) ::
      b64Char (b % 16 * 4 + c / 64) :: b64Char (c % 64) :: btoaBytes rest

/-- Base64 encoding without the padding characters (proof helper: `btoaBytes`
is this followed by the padding). -/
def btoaRaw : List Nat → List Char
  | [] => []
  | [a] => [b64Char (a / 4), b64Char (a % 4 * 16)]
  | [a, b] => [b64Char (a / 4), b64Char (a % 4 * 16 + b / 16), b64Char (b % 16 * 4)]
  | a :: b :: c :: rest =>
    b64Char (a / 4) :: b64Char (a % 4 * 16 + b / 16) ::
      b64Char (b % 16 * 4 + c / 64) :: b64Char (c % 64) :: btoaRaw rest

/-- The padding `btoaBytes` appends after `btoaRaw` (proof helper). -/
def b64Pad : List Nat → List Char
  | [] => []
  | [_] => ['=', '=']
  | [_, _] => ['=']
  | _ :: _ :: _ :: rest => b64Pad rest

/-- Model of `btoa(s)`: `none` models the `InvalidCharacterError` thrown for any UTF-16
unit above `U+00FF`; otherwise the base64 encoding of the code-point bytes. -/
def btoa (s : String) : Option String :=
  if s.data.all (fun c => c.toNat < 256) then
    some (String.mk (btoaBytes (s.data.map Char.toNat)))
  else none

/-- Decoding of a padding-stripped base64 character sequence: full 4-character
groups plus an optional trailing group of 2 or 3; a trailing single character
or any non-alphabet character fails. -/
def b64DecodeChars : List Char → Option (List Nat)
  | [] => some []
  | [_] => none
  | [a, b] => do
    let x ← b64Val a
    let y ← b64Val b
    pure [x * 4 + y / 16]
  | [a, b, c] => do
    let x ← b64Val a
    let y ← b64Val b
    let z ← b64Val c
    pure [x * 4 + y / 16, y % 16 * 16 + z / 4]
  | a :: b :: c :: d :: rest => do
    let x ← b64Val a
    let y ← b64Val b
    let z ← b64Val c
    let w ← b64Val d
    let tail ← b64DecodeChars rest
    pure ((x * 4 + y / 16) :: (y % 16 * 16 + z / 4) :: (z % 4 * 64 + w) :: tail)

/-- ASCII whitespace, which `atob`'s forgiving-base64 decode strips. -/
def isB64Ws (c : Char) : Bool :=
  c.toNat = 9 || c.toNat = 10 || c.toNat = 12 || c.toNat = 13 || c.toNat = 32

/-- Strip up to two trailing `=` when the length is a multiple of 4
(forgiving-base64 step). -/
def stripPad (cs : List Char) : List Char :=
  if cs.length % 4 = 0 then
    match cs.reverse with
    | '=' :: '=' :: r => r.reverse
    | '=' :: r => r.reverse
    | _ => cs
  else cs

/-- Model of `atob(s)`: forgiving-base64 decode; `none` models the thrown
`InvalidCharacterError`. -/
def atob (s : String) : Option String :=
  let cs := stripPad (s.data.filter (fun c => !isB64Ws c))
  (b64DecodeChars cs).map (fun bs => String.mk (bs.map Char.ofNat))

/-! ## JSON (`JSON.stringify` / `JSON.parse`) -/

/-- The `Char` of the literal `\x7b` (kept out of string literals). -/
def lbrace : Char := Char.ofNat 123

/-- The `Char` of the literal `\x7d`. -/
def rbrace : Char := Char.ofNat 125

/-- JSON values as `JSON.parse` produces them.  A number keeps its source
lexeme (no claim computes with numeric values). -/
inductive Json where
  | null
  | bool (b : Bool)
  | num (raw : String)
  | str (s : String)
  | arr (items : List Json)
  | obj (members : List (String × Json))

/-- Lowercase hex digit, as `JSON.stringify` emits in `\u00XX` escapes. -/
def hexDigit (n : Nat) : Char := "0123456789abcdef".data.getD n '0'

/-- The value of a hex digit character. -/
def hexVal (c : Char) : Option Nat :=
  if 48 ≤ c.toNat ∧ c.toNat ≤ 57 then some (c.toNat - 48)
  else if 97 ≤ c.toNat ∧ c.toNat ≤ 102 then some (c.toNat - 87)
  else if 65 ≤ c.toNat ∧ c.toNat ≤ 70 then some (c.toNat - 55)
  else none

/-- Model of the escaping `JSON.stringify` applies to one character inside a string literal. -/
def quoteChar (c : Char) : List Char :=
  if c = '"' then ['\\', '"']
  else if c = '\\' then ['\\', '\\']
  else if c.toNat = 8 then ['\\', 'b']
  else if c.toNat = 9 then ['\\', 't']
  else if c.toNat = 10 then ['\\', 'n']
  else if c.toNat = 12 then ['\\', 'f']
  else if c.toNat = 13 then ['\\', 'r']
  else if c.toNat < 32 then ['\\', 'u', '0', '0', hexDigit (c.toNat / 16), hexDigit (c.toNat % 16)]
  else [c]

/-- Model of `JSON.stringify` applied to a string value. -/
def quoteString (s : String) : List Char :=
  '"' :: (s.data.map quoteChar).flatten ++ ['"']

/-- Skip JSON whitespace. -/
def skipWs : List Char → List Char
  | c :: r => if c.toNat = 32 || c.toNat = 9 || c.toNat = 10 || c.toNat = 13 then skipWs r else c :: r
  | [] => []

/-- Parse the body of a JSON string literal (after the opening quote),
returning the decoded characters and the remaining input. -/
def parseStrAux : List Char → Option (List Char × List Char)
  | [] => none
  | c :: r =>
    if c = '"' then some ([], r)
    else if c = '\\' then
      match r with
      | [] => none
      | e :: r2 =>
        if e = '"' then (parseStrAux r2).map (fun p => ('"' :: p.1, p.2))
        else if e = '\\' then (parseStrAux r2).map (fun p => ('\\' :: p.1, p.2))
        else if e = '/' then (parseStrAux r2).map (fun p => ('/' :: p.1, p.2))
        else if e = 'b' then (parseStrAux r2).map (fun p => (Char.ofNat 8 :: p.1, p.2))
        else if e = 't' then (parseStrAux r2).map (fun p => (Char.ofNat 9 :: p.1, p.2))
        else if e = 'n' then (parseStrAux r2).map (fun p => (Char.ofNat 10 :: p.1, p.2))
        else if e = 'f' then (parseStrAux r2).map (fun p => (Char.ofNat 12 :: p.1, p.2))
        else if e = 'r' then (parseStrAux r2).map (fun p => (Char.ofNat 13 :: p.1, p.2))
        else if e = 'u' then
          match r2 with
          | h1 :: h2 :: h3 :: h4 :: r3 => do
            let v1 ← hexVal h1
            let v2 ← hexVal h2
            let v3 ← hexVal h3
            let v4 ← hexVal h4
            (parseStrAux r3).map
              (fun p => (Char.ofNat (v1 * 4096 + v2 * 256 + v3 * 16 + v4) :: p.1, p.2))
          | _ => none
        else none
    else if c.toNat < 32 then none
    else (parseStrAux r).map (fun p => (c :: p.1, p.2))

/-- Digit test for the number lexer. -/
def isDigitChar (c : Char) : Bool := 48 ≤ c.toNat && c.toNat ≤ 57

/-- Lex a run of digits. -/
def takeDigits : List Char → List Char × List Char
  | c :: r =>
    if isDigitChar c then
      let p := takeDigits r
      (c :: p.1, p.2)
    else ([], c :: r)
  | [] => ([], [])

/-- Lex a JSON number (grammar `-? int frac? exp?`), returning its lexeme. -/
def lexNum (cs : List Char) : Option (List Char × List Char) :=
  let (sign, cs1) := match cs with
    | '-' :: r => (['-'], r)
    | _ => ([], cs)
  match cs1 with
  | c :: r =>
    if c = '0' ∨ ¬ isDigitChar c then
      if c = '0' then some (sign ++ ['0'], r) else none
    else
      let p := takeDigits (c :: r)
      some (sign ++ p.1, p.2)
  | [] => none

/-- Lex the optional fraction part. -/
def lexFrac (cs : List Char) : Option (List Char × List Char) :=
  match cs with
  | '.' :: r =>
    let p := takeDigits r
    if p.1 = [] then none else some ('.' :: p.1, p.2)
  | _ => some ([], cs)

/-- Lex the optional exponent part. -/
def lexExp (cs : List Char) : Option (List Char × List Char) :=
  match cs with
  | c :: r =>
    if c = 'e' ∨ c = 'E' then
      let (sgn, r2) := match r with
        | s :: r2 => if s = '+' ∨ s = '-' then ([s], r2) else ([], s :: r2)
        | [] => ([], [])
      let p := takeDigits r2
      if p.1 = [] then none else some (c :: sgn ++ p.1, p.2)
    else some ([], cs)
  | [] => some ([], [])

/-- Parse a JSON number token into its lexeme. -/
def parseNum (cs : List Char) : Option (Json × List Char) := do
  let (i, r1) ← lexNum cs
  let (f, r2) ← lexFrac r1
  let (e, r3) ← lexExp r2
  pure (.num (String.mk (i ++ f ++ e)), r3)

/-- Head character starting a number token. -/
def isNumStart (c : Char) : Bool := c = '-' || isDigitChar c

mutual

/-- Recursive-descent JSON value parser; `fuel` bounds nesting/iteration and
exceeds the input length at the top-level entry point. -/
def parseV : Nat → List Char → Option (Json × List Char)
  | 0, _ => none
  | fuel + 1, cs =>
    match cs with
    | [] => none
    | c :: r =>
      if c = 'n' then
        match r with
        | 'u' :: 'l' :: 'l' :: r2 => some (.null, r2)
        | _ => none
      else if c = 't' then
        match r with
        | 'r' :: 'u' :: 'e' :: r2 => some (.bool true, r2)
        | _ => none
      else if c = 'f' then
        match r with
        | 'a' :: 'l' :: 's' :: 'e' :: r2 => some (.bool false, r2)
        | _ => none
      else if c = '"' then
        (parseStrAux r).map (fun p => (.str (String.mk p.1), p.2))
      else if c = lbrace then
        match skipWs r with
        | [] => none
        | d :: r2 =>
          if d = rbrace then some (.obj [], r2)
          else (parseMembers fuel (d :: r2)).map (fun p => (.obj p.1, p.2))
      else if c = '[' then
        match skipWs r with
        | [] => none
        | d :: r2 =>
          if d = ']' then some (.arr [], r2)
          else (parseItems fuel (d :: r2)).map (fun p => (.arr p.1, p.2))
      else if isNumStart c then parseNum (c :: r)
      else none

/-- Parse the non-empty member list of a JSON object, up to and including the
closing brace. -/
def parseMembers : Nat → List Char → Option (List (String × Json) × List Char)
  | 0, _ => none
  | fuel + 1, cs =>
    match cs with
    | c :: r =>
      if c = '"' then
        match parseStrAux r with
        | none => none
        | some (k, r1) =>
          match skipWs r1 with
          | d :: r2 =>
            if d = ':' then
              match parseV fuel (skipWs r2) with
              | none => none
              | some (v, r3) =>
                match skipWs r3 with
                | d2 :: r4 =>
                  if d2 = ',' then
                    (parseMembers fuel (skipWs r4)).map
                      (fun p => ((String.mk k, v) :: p.1, p.2))
                  else if d2 = rbrace then some ([(String.mk k, v)], r4)
                  else none
                | [] => none
            else none
          | [] => none
      else none
    | [] => none

/-- Parse the non-empty item list of a JSON array, up to and including the
closing bracket. -/
def parseItems : Nat → List Char → Option (List Json × List Char)
  | 0, _ => none
  | fuel + 1, cs =>
    match parseV fuel cs with
    | none => none
    | some (v, r) =>
      match skipWs r with
      | d :: r2 =>
        if d = ',' then
          (parseItems fuel (skipWs r2)).map (fun p => (v :: p.1, p.2))
        else if d = ']' then some ([v], r2)
        else none
      | [] => none

end

/-- Model of `JSON.parse`: parse one value surrounded by whitespace, requiring the
whole input to be consumed. -/
def parseJson (s : String) : Option Json :=
  match parseV (s.data.length + 1) (skipWs s.data) with
  | some (v, rest) => if skipWs rest = [] then some v else none
  | none => none

/-! ## Session codec (`app/lib/session.ts`) -/

/-- The `SessionData` record: all three fields optional. -/
structure SessionData where
  accessToken : Option String := none
  login : Option String := none
  avatarUrl : Option String := none
deriving DecidableEq

/-- The present fields of a session, in property order — exactly the members
`JSON.stringify` emits (`undefined` fields are omitted). -/
def sessionFields (s : SessionData) : List (String × String) :=
  (match s.accessToken with | some t => [("accessToken", t)] | none => []) ++
  (match s.login with | some t => [("login", t)] | none => []) ++
  (match s.avatarUrl with | some t => [("avatarUrl", t)] | none => [])

/-- One `"key":"value"` member. -/
def memberChars (kv : String × String) : List Char :=
  quoteString kv.1 ++ ':' :: quoteString kv.2

/-- Comma-separated members. -/
def membersChars : List (String × String) → List Char
  | [] => []
  | [kv] => memberChars kv
  | kv :: rest => memberChars kv ++ ',' :: membersChars rest

/-- Model of `JSON.stringify(data)` for a session record. -/
def stringifySession (s : SessionData) : String :=
  String.mk (lbrace :: membersChars (sessionFields s) ++ [rbrace])

/-- The JSON value `JSON.parse` recovers from a stringified session. -/
def sessionJson (s : SessionData) : Json :=
  .obj ((sessionFields s).map (fun kv => (kv.1, .str kv.2)))

/-- Model of `encodeSession(data) = btoa(JSON.stringify(data))`; `none` models the
exception `btoa` throws on characters above `U+00FF`. -/
def encodeSession (s : SessionData) : Option String :=
  btoa (stringifySession s)

/-- The empty record `{}` that `decodeSession` returns from its catch. -/
def emptyJson : Json := .obj []

/-- Model of `decodeSession(cookie)`: `JSON.parse(atob(cookie))` with every exception
caught and turned into the empty record.  The result is whatever JSON value
was encoded — the code performs no shape validation. -/
def decodeSession (cookie : String) : Json :=
  match atob cookie with
  | none => emptyJson
  | some s =>
    match parseJson s with
    | none => emptyJson
    | some v => v

/-- A string whose UTF-16 units all fit in one byte (the domain on which
`btoa` does not throw). -/
def latin1Str (s : String) : Bool := s.data.all (fun c => c.toNat < 256)

/-- All present fields of the session are Latin-1. -/
def latin1Session (s : SessionData) : Bool :=
  (sessionFields s).all (fun kv => latin1Str kv.2)

/-! ## Cookie emission and the auth callback loader -/

/-- The unreserved characters of `encodeURIComponent`. -/
def uriUnreserved (c : Char) : Bool :=
  c.isAlphanum || c = '-' || c = '_' || c = '.' || c = '!' || c = '~' ||
    c = '*' || c = Char.ofNat 39 || c = '(' || c = ')'

/-- Uppercase hex digit. -/
def hexUpper (n : Nat) : Char := "0123456789ABCDEF".data.getD n '0'

/-- The percent escape of one byte. -/
def percentByte (b : Nat) : List Char := ['%', hexUpper (b / 16), hexUpper (b % 16)]

/-- Model of `encodeURIComponent(s)`. -/
def uriEncode (s : String) : String :=
  String.mk ((s.data.map (fun c =>
    if uriUnreserved c then [c]
    else ((String.singleton c).toUTF8.toList.map (fun b => percentByte b.toNat)).flatten)).flatten)

/-- The session cookie name. -/
def SESSION_COOKIE : String := "gh_session"

/-- Model of `setSessionCookie(data)`; `none` propagates an `encodeSession` throw. -/
def setSessionCookie (data : SessionData) : Option String :=
  (encodeSession data).map (fun e =>
    SESSION_COOKIE ++ "=" ++ uriEncode e ++ "; Path=/; HttpOnly; SameSite=Lax; Max-Age=86400")

/-- The token-exchange response body, as far as the loader reads it. -/
structure TokenResp where
  access_token : Option String := none
deriving DecidableEq

/-- The profile response body, as far as the loader reads it. -/
structure UserResp where
  login : Option String := none
  avatar_url : Option String := none
deriving DecidableEq

/-- What the auth callback loader returns: a redirect location and an optional
`Set-Cookie` header. -/
structure LoaderResult where
  location : String
  setCookie : Option String
deriving DecidableEq

/-- The auth callback route loader: `code` is `searchParams.get("code")`,
`tokenData` the parsed token-exchange response, `user` the parsed profile
response.  `none` models an uncaught exception. -/
def authCallbackLoader (code : Option String) (tokenData : TokenResp)
    (user : UserResp) : Option LoaderResult :=
  if jsTruthy code = false then some ⟨"/?error=no_code", none⟩
  else if jsTruthy tokenData.access_token = false then some ⟨"/?error=token_failed", none⟩
  else
    (setSessionCookie
      ⟨tokenData.access_token, user.login, user.avatar_url⟩).map
      (fun ck => ⟨"/dashboard", some ck⟩)

/-! ## Invariants and concrete inputs used by the theorems below -/

/-- Invariant the aggregation loop maintains: every accepted record's URL is
registered in `seen` and non-empty, and the accepted URLs are pairwise
distinct. -/
def StateOK (s : FetchState) : Prop :=
  (∀ p ∈ s.allPRs, p.url ∈ s.seen ∧ p.url ≠ "") ∧
    (s.allPRs.map PullRequest.url).Nodup

/-- A `getTime` that maps the sample `updatedAt` strings "1"–"4" to their
numeric values. -/
def gtNum : String → Int := fun s =>
  if s = "4" then 4 else if s = "3" then 3 else if s = "2" then 2
  else if s = "1" then 1 else 0

/-- A fully-populated raw node with the given URL and update stamp. -/
def mkNode (u upd : String) : RawNode :=
  { title := "Fix login"
    url := some u
    number := 7
    isDraft := false
    headRefName := some "feat"
    createdAt := "2024-01-01"
    updatedAt := upd
    author := some ⟨"alice", "img"⟩
    repoNameWithOwner := "acme/app"
    reviewDecision := some "APPROVED"
    commits := [⟨some "SUCCESS"⟩] }

/-- One page whose node list repeats URL `u1`. -/
def pgDup : String → Option String → PageResult := fun _ _ =>
  .success [mkNode "u1" "2", mkNode "u1" "1"] false none

/-- A walk whose second page request fails at the transport layer. -/
def pgErr : String → Option String → PageResult := fun _ c =>
  if c = none then .success [mkNode "u1" "1"] true (some "c1")
  else .transportError 500

/-- A 3-page walk (continuation true, true, false) keyed on the end cursors
`c1`, `c2`; any other cursor fails, so a successful walk proves the previous
page's end cursor was passed back. -/
def pg3 : String → Option String → PageResult := fun _ c =>
  if c = none then .success [mkNode "u1" "4", mkNode "u2" "3"] true (some "c1")
  else if c = some "c1" then .success [mkNode "u3" "2"] true (some "c2")
  else if c = some "c2" then .success [mkNode "u4" "1"] false none
  else .transportError 500

/-- One page whose nodes arrive out of update order. -/
def pgMix : String → Option String → PageResult := fun _ _ =>
  .success [mkNode "u1" "1", mkNode "u2" "3", mkNode "u3" "2"] false none

/-- A node with no URL. -/
def noUrlNode : RawNode := { mkNode "x" "1" with url := none }

/-- A node whose URL is the empty string. -/
def emptyUrlNode : RawNode := { mkNode "x" "1" with url := some "" }

/-- One page mixing URL-less nodes with a regular one. -/
def pgUrl : String → Option String → PageResult := fun _ _ =>
  .success [noUrlNode, emptyUrlNode, mkNode "u9" "1"] false none

/-- A raw node with every optional upstream field absent. -/
def bareNode : RawNode :=
  { title := "T", url := some "u", number := 1, isDraft := true,
    headRefName := none, createdAt := "c", updatedAt := "t",
    author := none, repoNameWithOwner := "o/r", reviewDecision := none,
    commits := [] }

/-- The node `bareNode` with a present status rollup. -/
def rollupNode : RawNode := { bareNode with commits := [⟨some "FAILURE"⟩] }

/-- The node `bareNode` with a present rollup whose state is the empty string. -/
def emptyStateNode : RawNode := { bareNode with commits := [⟨some ""⟩] }

/-- A session whose login contains `€` (U+20AC, above the `btoa` range). -/
def sessionEuro : SessionData := ⟨none, some (String.singleton (Char.ofNat 8364)), none⟩

/-- A session whose token contains `→` (U+2192, above the `btoa` range). -/
def sessionArrow : SessionData := ⟨some (String.singleton (Char.ofNat 8594)), none, none⟩

/-- A realistic Latin-1 session. -/
def sessionW : SessionData := ⟨some "gho_abc123", some "alice", none⟩

/-- Another Latin-1 session. -/
def sessionW7 : SessionData := ⟨some "tok", none, some "https://avatars.example/u/1"⟩

/-! ## Aggregator lemmas -/

theorem normalizeNode_url {n : RawNode} {u : String} (h : n.url = some u) :
    (normalizeNode n).url = u := by
  simp [normalizeNode, h]

theorem stateOK_processNode {s : FetchState} (h : StateOK s) (n : RawNode) :
    StateOK (processNode s n) := by
  cases hu : n.url with
  | none => simpa only [processNode, hu] using h
  | some u =>
    have hpn : processNode s n =
        if u = "" ∨ u ∈ s.seen then s
        else ⟨u :: s.seen, s.allPRs ++ [normalizeNode n]⟩ := by
      simp only [processNode, hu]
    rw [hpn]
    by_cases hc : u = "" ∨ u ∈ s.seen
    · rw [if_pos hc]; exact h
    · rw [if_neg hc]
      push_neg at hc
      obtain ⟨hne, hnm⟩ := hc
      refine ⟨?_, ?_⟩
      · intro p hp
        rcases List.mem_append.mp hp with hmem | hmem
        · obtain ⟨h1, h2⟩ := h.1 p hmem
          exact ⟨List.mem_cons_of_mem _ h1, h2⟩
        · rw [List.mem_singleton.mp hmem, normalizeNode_url hu]
          exact ⟨List.mem_cons_self _ _, hne⟩
      · rw [List.map_append, List.nodup_append]
        refine ⟨h.2, by simp, ?_⟩
        intro x hx
        simp only [List.map_cons, List.map_nil, normalizeNode_url hu, List.mem_singleton]
        intro he
        subst he
        obtain ⟨p, hp, hpu⟩ := List.mem_map.mp hx
        exact hnm (hpu ▸ (h.1 p hp).1)

theorem stateOK_foldl : ∀ (ns : List RawNode) (s : FetchState), StateOK s →
    StateOK (ns.foldl processNode s)
  | [], _, h => h
  | n :: ns, _, h => stateOK_foldl ns _ (stateOK_processNode h n)

theorem stateOK_loopPages {page : String → Option String → PageResult} {q : String} :
    ∀ {fuel : Nat} {cursor : Option String} {s s2 : FetchState}, StateOK s →
    loopPages page q fuel cursor s = some (.ok s2) → StateOK s2 := by
  intro fuel
  induction fuel with
  | zero => intro cursor s s2 _ he; simp [loopPages] at he
  | succ f ih =>
    intro cursor s s2 h he
    rw [loopPages] at he
    cases hp : page q cursor with
    | transportError st => rw [hp] at he; simp at he
    | apiError m => rw [hp] at he; simp at he
    | success nodes hasNext endC =>
      rw [hp] at he
      cases hasNext with
      | true =>
        simp only [reduceIte] at he
        exact ih (stateOK_foldl nodes s h) he
      | false =>
        simp at he
        exact he ▸ stateOK_foldl nodes s h

theorem stateOK_runQueries {page : String → Option String → PageResult} {fuel : Nat} :
    ∀ (qs : List String) {s s2 : FetchState}, StateOK s →
    runQueries page fuel qs s = some (.ok s2) → StateOK s2 := by
  intro qs
  induction qs with
  | nil =>
    intro s s2 h he
    simp only [runQueries, Option.some.injEq, Except.ok.injEq] at he
    exact he ▸ h
  | cons q qs ih =>
    intro s s2 h he
    rw [runQueries] at he
    cases hl : loopPages page q fuel none s with
    | none => rw [hl] at he; simp at he
    | some x =>
      cases x with
      | error e => rw [hl] at he; simp at he
      | ok s1 =>
        rw [hl] at he
        exact ih (stateOK_loopPages h hl) he

theorem fetch_ok {page : String → Option String → PageResult} {getTime : String → Int}
    {fuel : Nat} {qs : List String} {prs : List PullRequest}
    (he : fetchOpenPRsWith page getTime fuel qs = some (.ok prs)) :
    ∃ s2, runQueries page fuel qs ⟨[], []⟩ = some (.ok s2) ∧
      prs = sortPRs getTime s2.allPRs := by
  unfold fetchOpenPRsWith at he
  cases hr : runQueries page fuel qs ⟨[], []⟩ with
  | none => rw [hr] at he; simp at he
  | some x =>
    cases x with
    | error e => rw [hr] at he; simp at he
    | ok s2 =>
      rw [hr] at he
      simp only [Option.some.injEq, Except.ok.injEq] at he
      exact ⟨s2, rfl, he.symm⟩

theorem stateOK_empty : StateOK ⟨[], []⟩ := ⟨by simp, by simp⟩

theorem loop_error_of_transport {page : String → Option String → PageResult}
    {q : String} {st : Nat} :
    ∀ {fuel : Nat} {cursor : Option String},
    PageResult.transportError st ∈ walkResponses page q fuel cursor →
    ∀ s, ∃ e, loopPages page q fuel cursor s = some (.error e) := by
  intro fuel
  induction fuel with
  | zero => intro cursor hm; simp [walkResponses] at hm
  | succ f ih =>
    intro cursor hm s
    rw [walkResponses] at hm
    cases hp : page q cursor with
    | transportError st2 =>
      exact ⟨"GitHub API error: " ++ toString st2, by rw [loopPages, hp]⟩
    | apiError m =>
      rw [hp] at hm; simp at hm
    | success nodes hasNext endC =>
      rw [hp] at hm
      cases hasNext with
      | true =>
        simp only [reduceIte, List.mem_cons] at hm
        rcases hm with hm | hm
        · exact absurd hm (by simp)
        · obtain ⟨e, hle⟩ := ih hm (nodes.foldl processNode s)
          refine ⟨e, ?_⟩
          rw [loopPages, hp]
          simpa only [reduceIte] using hle
      | false =>
        simp at hm

/-! ## Claim theorems for the aggregator -/

/-- C1: for every environment, fuel bound, configured query list and returned
list, the list `fetchOpenPRs`'s aggregation loop returns contains each PR URL
at most once — a node whose URL was already accepted from any earlier page or
query is discarded. -/
theorem fetchOpenPRs_dedup (page : String → Option String → PageResult)
    (getTime : String → Int) (fuel : Nat) (qs : List String) (prs : List PullRequest)
    (he : fetchOpenPRsWith page getTime fuel qs = some (.ok prs)) :
    (prs.map PullRequest.url).Nodup := by
  obtain ⟨s2, hr, hs⟩ := fetch_ok he
  have h2 := stateOK_runQueries qs stateOK_empty hr
  subst hs
  exact ((List.perm_insertionSort _ s2.allPRs).map PullRequest.url).nodup_iff.mpr h2.2

/-- Witness for C1: a page repeating URL `u1` yields a single record. -/
theorem fetchOpenPRs_dedup_witness :
    ([normalizeNode (mkNode "u1" "2")].map PullRequest.url).Nodup :=
  fetchOpenPRs_dedup pgDup gtNum 1 ["q"] _ rfl

/-- C2: if any page request during the (single-query) `fetchOpenPRs` walk
returns a non-success transport status, the whole call fails with an error and
returns no list at all — no record accepted from an earlier page survives. -/
theorem fetchOpenPRs_atomic (page : String → Option String → PageResult)
    (getTime : String → Int) (fuel : Nat) (st : Nat)
    (hm : PageResult.transportError st ∈ walkResponses page mainQuery fuel none) :
    ∃ e, fetchOpenPRs page getTime fuel = some (Except.error e) := by
  obtain ⟨e, hl⟩ := loop_error_of_transport hm ⟨[], []⟩
  refine ⟨e, ?_⟩
  unfold fetchOpenPRs fetchOpenPRsWith queries
  rw [runQueries, hl]

/-- Witness for C2: page 2 of the `pgErr` walk fails with status 500 and the
whole call errors. -/
theorem fetchOpenPRs_atomic_witness :
    ∃ e, fetchOpenPRs pgErr gtNum 3 = some (Except.error e) :=
  fetchOpenPRs_atomic pgErr gtNum 3 500 (by decide)

/-- C3: every successful result is sorted by the parsed `updatedAt` timestamp
descending — for each adjacent pair the earlier record's timestamp is at least
the later record's (tie order unspecified). -/
theorem fetchOpenPRs_sorted (page : String → Option String → PageResult)
    (getTime : String → Int) (fuel : Nat) (qs : List String) (prs : List PullRequest)
    (he : fetchOpenPRsWith page getTime fuel qs = some (.ok prs)) :
    prs.Chain' (fun a b => getTime b.updatedAt ≤ getTime a.updatedAt) := by
  obtain ⟨s2, _, hs⟩ := fetch_ok he
  subst hs
  unfold sortPRs
  haveI : IsTotal PullRequest (fun a b => getTime b.updatedAt ≤ getTime a.updatedAt) :=
    ⟨fun _ _ => le_total _ _⟩
  haveI : IsTrans PullRequest (fun a b => getTime b.updatedAt ≤ getTime a.updatedAt) :=
    ⟨fun _ _ _ h1 h2 => le_trans h2 h1⟩
  exact (List.sorted_insertionSort _ s2.allPRs).chain'

/-- Witness for C3: an out-of-order page comes back sorted descending. -/
theorem fetchOpenPRs_sorted_witness :
    List.Chain' (fun a b => gtNum b.updatedAt ≤ gtNum a.updatedAt)
      [normalizeNode (mkNode "u2" "3"), normalizeNode (mkNode "u3" "2"),
       normalizeNode (mkNode "u1" "1")] :=
  fetchOpenPRs_sorted pgMix gtNum 1 ["q"] _ rfl

/-- C5: on the 3-page environment `pg3` (continuation flags true, true, false,
each later page reachable only through the previous page's end cursor), the
walk requests all three pages and every node of every page appears in the
output exactly once. -/
theorem fetchOpenPRs_pagination :
    fetchOpenPRs pg3 gtNum 5 = some (.ok
      [normalizeNode (mkNode "u1" "4"), normalizeNode (mkNode "u2" "3"),
       normalizeNode (mkNode "u3" "2"), normalizeNode (mkNode "u4" "1")]) := rfl

/-- C10: a raw node whose URL is absent or empty is dropped unchanged, and
consequently every record a successful aggregation returns has a non-empty
URL. -/
theorem fetchOpenPRs_url_nonempty :
    (∀ (s : FetchState) (n : RawNode), (n.url = none ∨ n.url = some "") →
      processNode s n = s) ∧
    (∀ (page : String → Option String → PageResult) (getTime : String → Int)
      (fuel : Nat) (qs : List String) (prs : List PullRequest),
      fetchOpenPRsWith page getTime fuel qs = some (.ok prs) →
      ∀ p ∈ prs, p.url ≠ "") := by
  constructor
  · intro s n h
    rcases h with h | h <;> simp [processNode, h]
  · intro page getTime fuel qs prs he p hp
    obtain ⟨s2, hr, hs⟩ := fetch_ok he
    have h2 := stateOK_runQueries qs stateOK_empty hr
    subst hs
    have hmem : p ∈ s2.allPRs :=
      (List.perm_insertionSort _ s2.allPRs).mem_iff.mp hp
    exact (h2.1 p hmem).2

/-- Witness for C10: the URL-less nodes of `pgUrl` are dropped and the sole
returned record has a non-empty URL. -/
theorem fetchOpenPRs_url_nonempty_witness :
    processNode ⟨[], []⟩ noUrlNode = ⟨[], []⟩ ∧
      (normalizeNode (mkNode "u9" "1")).url ≠ "" :=
  ⟨fetchOpenPRs_url_nonempty.1 _ _ (Or.inl rfl),
   fetchOpenPRs_url_nonempty.2 pgUrl gtNum 1 ["q"] _ rfl _ (List.mem_singleton.mpr rfl)⟩

/-- C4 (amended): the normalization defaults — missing author gives
`"unknown"` author and empty avatar; missing or empty branch gives
`"unknown"`; missing review decision gives `""`; missing rollup gives
`"none"`; a present, non-empty rollup state is lower-cased (an empty-string
state also falls back to `"none"`, which is the one correction to the claim). -/
theorem normalizeNode_defaults (n : RawNode) :
    (n.author = none → (normalizeNode n).author = "unknown" ∧
      (normalizeNode n).authorAvatar = "") ∧
    ((n.headRefName = none ∨ n.headRefName = some "") →
      (normalizeNode n).branch = "unknown") ∧
    (n.reviewDecision = none → (normalizeNode n).reviewDecision = "") ∧
    (statusRollupOf n = none → (normalizeNode n).statusState = "none") ∧
    (∀ st, statusRollupOf n = some st → st ≠ "" →
      (normalizeNode n).statusState = toLowerStr st) := by
  refine ⟨?_, ?_, ?_, ?_, ?_⟩
  · intro h; simp [normalizeNode, jsOr, h]
  · intro h; rcases h with h | h <;> simp [normalizeNode, jsOr, h]
  · intro h; simp [normalizeNode, jsOr, h]
  · intro h; simp [normalizeNode, jsOr, h]
  · intro st h hne
    have hlow : toLowerStr st ≠ "" := by
      intro he
      apply hne
      have hd : st.data.map Char.toLower = [] := congrArg String.data he
      have h2 : st.data = [] := List.map_eq_nil_iff.mp hd
      exact String.ext_iff.mpr (by simp [h2])
    simp [normalizeNode, jsOr, h, hlow]

/-- Counterexample for C4 as stated: a present rollup state is not always
returned lower-cased — the empty-string state yields `"none"`. -/
theorem normalizeNode_lower_counterexample :
    ¬ (∀ (n : RawNode) (st : String), statusRollupOf n = some st →
        (normalizeNode n).statusState = toLowerStr st) :=
  fun h => absurd (h emptyStateNode "" rfl) (by decide)

/-! ## Base64 round-trip lemmas -/

theorem b64Val_b64Char : ∀ n < 64, b64Val (b64Char n) = some n := by decide

theorem b64Char_ne_eqSign : ∀ n < 64, b64Char n ≠ '=' := by decide

theorem b64Char_not_ws : ∀ n < 64, isB64Ws (b64Char n) = false := by decide

theorem b64DecodeChars_btoaRaw : ∀ bs : List Nat, (∀ b ∈ bs, b < 256) →
    b64DecodeChars (btoaRaw bs) = some bs
  | [], _ => rfl
  | [a], h => by
    have ha : a < 256 := h a (List.mem_singleton.mpr rfl)
    have h1 := b64Val_b64Char (a / 4) (by omega)
    have h2 := b64Val_b64Char (a % 4 * 16) (by omega)
    simp [btoaRaw, b64DecodeChars, h1, h2]
    omega
  | [a, b], h => by
    have ha : a < 256 := h a (by simp)
    have hb : b < 256 := h b (by simp)
    have h1 := b64Val_b64Char (a / 4) (by omega)
    have h2 := b64Val_b64Char (a % 4 * 16 + b / 16) (by omega)
    have h3 := b64Val_b64Char (b % 16 * 4) (by omega)
    simp [btoaRaw, b64DecodeChars, h1, h2, h3]
    constructor <;> omega
  | a :: b :: c :: rest, h => by
    have ha : a < 256 := h a (by simp)
    have hb : b < 256 := h b (by simp)
    have hc : c < 256 := h c (by simp)
    have ih := b64DecodeChars_btoaRaw rest (fun x hx => h x (by simp [hx]))
    have h1 := b64Val_b64Char (a / 4) (by omega)
    have h2 := b64Val_b64Char (a % 4 * 16 + b / 16) (by omega)
    have h3 := b64Val_b64Char (b % 16 * 4 + c / 64) (by omega)
    have h4 := b64Val_b64Char (c % 64) (by omega)
    simp [btoaRaw, b64DecodeChars, h1, h2, h3, h4, ih]
    refine ⟨by omega, by omega, by omega⟩

theorem btoaBytes_eq_raw_pad : ∀ bs : List Nat, btoaBytes bs = btoaRaw bs ++ b64Pad bs
  | [] => rfl
  | [_] => rfl
  | [_, _] => rfl
  | a :: b :: c :: rest => by
    simp only [btoaBytes, btoaRaw, b64Pad, btoaBytes_eq_raw_pad rest, List.cons_append]

theorem b64Pad_cases : ∀ bs : List Nat,
    b64Pad bs = [] ∨ b64Pad bs = ['='] ∨ b64Pad bs = ['=', '=']
  | [] => Or.inl rfl
  | [_] => Or.inr (Or.inr rfl)
  | [_, _] => Or.inr (Or.inl rfl)
  | _ :: _ :: _ :: rest => b64Pad_cases rest

theorem b64Pad_ne_nil_imp (bs : List Nat) (h : b64Pad bs ≠ []) : bs ≠ [] :=
  fun hbs => h (hbs ▸ rfl)

theorem btoaRaw_last : ∀ bs : List Nat, bs ≠ [] → (∀ b ∈ bs, b < 256) →
    ∃ r n, n < 64 ∧ btoaRaw bs = r ++ [b64Char n]
  | [], h, _ => absurd rfl h
  | [a], _, _ => ⟨[b64Char (a / 4)], a % 4 * 16, by omega, rfl⟩
  | [a, b], _, _ =>
    ⟨[b64Char (a / 4), b64Char (a % 4 * 16 + b / 16)], b % 16 * 4, by omega, rfl⟩
  | [a, b, c], _, _ =>
    ⟨[b64Char (a / 4), b64Char (a % 4 * 16 + b / 16), b64Char (b % 16 * 4 + c / 64)],
      c % 64, by omega, rfl⟩
  | a :: b :: c :: d :: rest, _, hb => by
    obtain ⟨r, n, hn, hr⟩ :=
      btoaRaw_last (d :: rest) (by simp) (fun x hx => hb x (by simp [List.mem_cons] at hx ⊢; tauto))
    refine ⟨b64Char (a / 4) :: b64Char (a % 4 * 16 + b / 16) ::
      b64Char (b % 16 * 4 + c / 64) :: b64Char (c % 64) :: r, n, hn, ?_⟩
    simp only [btoaRaw, hr, List.cons_append]

theorem btoaRaw_alphabet : ∀ bs : List Nat, (∀ b ∈ bs, b < 256) →
    ∀ c ∈ btoaRaw bs, ∃ n, n < 64 ∧ c = b64Char n
  | [], _, c, hc => absurd hc (by simp [btoaRaw])
  | [a], h, c, hc => by
    have ha : a < 256 := h a (by simp)
    simp only [btoaRaw, List.mem_cons, List.not_mem_nil, or_false] at hc
    rcases hc with rfl | rfl
    · exact ⟨a / 4, by omega, rfl⟩
    · exact ⟨a % 4 * 16, by omega, rfl⟩
  | [a, b], h, c, hc => by
    have ha : a < 256 := h a (by simp)
    have hb : b < 256 := h b (by simp)
    simp only [btoaRaw, List.mem_cons, List.not_mem_nil, or_false] at hc
    rcases hc with rfl | rfl | rfl
    · exact ⟨a / 4, by omega, rfl⟩
    · exact ⟨a % 4 * 16 + b / 16, by omega, rfl⟩
    · exact ⟨b % 16 * 4, by omega, rfl⟩
  | a :: b :: c :: rest, h, x, hx => by
    have ha : a < 256 := h a (by simp)
    have hb : b < 256 := h b (by simp)
    have hc : c < 256 := h c (by simp)
    simp only [btoaRaw, List.mem_cons] at hx
    rcases hx with rfl | rfl | rfl | rfl | hx
    · exact ⟨a / 4, by omega, rfl⟩
    · exact ⟨a % 4 * 16 + b / 16, by omega, rfl⟩
    · exact ⟨b % 16 * 4 + c / 64, by omega, rfl⟩
    · exact ⟨c % 64, by omega, rfl⟩
    · exact btoaRaw_alphabet rest (fun y hy => h y (by simp [hy])) x hx

theorem btoaBytes_len : ∀ bs : List Nat, (btoaBytes bs).length % 4 = 0
  | [] => rfl
  | [_] => by simp [btoaBytes]
  | [_, _] => by simp [btoaBytes]
  | _ :: _ :: _ :: rest => by
    have := btoaBytes_len rest
    simp only [btoaBytes, List.length_cons]
    omega

theorem stripPad_nopad (xs : List Char) (hne : ∀ c ∈ xs, c ≠ '=')
    (h4 : xs.length % 4 = 0) : stripPad xs = xs := by
  unfold stripPad
  rw [if_pos h4]
  split
  next x r heq =>
    have hm : '=' ∈ xs.reverse := by rw [heq]; exact List.mem_cons_self _ _
    exact absurd rfl (hne '=' (List.mem_reverse.mp hm))
  next x r hn heq =>
    have hm : '=' ∈ xs.reverse := by rw [heq]; exact List.mem_cons_self _ _
    exact absurd rfl (hne '=' (List.mem_reverse.mp hm))
  next x h1 h2 => rfl

theorem stripPad_pad1 (xs : List Char) (c : Char) (hc : c ≠ '=')
    (h4 : ((xs ++ [c]) ++ ['=']).length % 4 = 0) :
    stripPad ((xs ++ [c]) ++ ['=']) = xs ++ [c] := by
  unfold stripPad
  rw [if_pos h4]
  have hrev : ((xs ++ [c]) ++ ['=']).reverse = '=' :: c :: xs.reverse := by simp
  rw [hrev]
  split
  next x r heq =>
    exact absurd (List.cons.inj (List.cons.inj heq).2).1 hc
  next x r hn heq =>
    have h2 : r = c :: xs.reverse := ((List.cons.inj heq).2).symm
    subst h2
    simp
  next x h1 h2 =>
    exact absurd rfl (h2 (c :: xs.reverse))

theorem stripPad_pad2 (xs : List Char) (h4 : (xs ++ ['=', '=']).length % 4 = 0) :
    stripPad (xs ++ ['=', '=']) = xs := by
  unfold stripPad
  rw [if_pos h4]
  have hrev : (xs ++ ['=', '=']).reverse = '=' :: '=' :: xs.reverse := by simp
  rw [hrev]
  exact List.reverse_reverse xs

theorem stripPad_btoaBytes (bs : List Nat) (hb : ∀ b ∈ bs, b < 256) :
    stripPad (btoaBytes bs) = btoaRaw bs := by
  have hsplit := btoaBytes_eq_raw_pad bs
  have hlen := btoaBytes_len bs
  have hraw_ne : ∀ c ∈ btoaRaw bs, c ≠ '=' := by
    intro c hc
    obtain ⟨n, hn, rfl⟩ := btoaRaw_alphabet bs hb c hc
    exact b64Char_ne_eqSign n hn
  rcases b64Pad_cases bs with hp | hp | hp
  · rw [hsplit, hp, List.append_nil] at hlen ⊢
    exact stripPad_nopad _ hraw_ne hlen
  · have hbs : bs ≠ [] := b64Pad_ne_nil_imp bs (by rw [hp]; simp)
    obtain ⟨r, n, hn, hr⟩ := btoaRaw_last bs hbs hb
    rw [hsplit, hp, hr] at hlen ⊢
    exact stripPad_pad1 r (b64Char n) (b64Char_ne_eqSign n hn) hlen
  · rw [hsplit, hp] at hlen ⊢
    exact stripPad_pad2 _ hlen

theorem filter_ws_btoaBytes (bs : List Nat) (hb : ∀ b ∈ bs, b < 256) :
    (btoaBytes bs).filter (fun c => !isB64Ws c) = btoaBytes bs := by
  rw [List.filter_eq_self]
  intro c hc
  rw [btoaBytes_eq_raw_pad] at hc
  rcases List.mem_append.mp hc with hc | hc
  · obtain ⟨n, hn, rfl⟩ := btoaRaw_alphabet bs hb c hc
    simp [b64Char_not_ws n hn]
  · rcases b64Pad_cases bs with hp | hp | hp <;> rw [hp] at hc <;> simp at hc <;>
      subst hc <;> decide

theorem atob_eq (t : String) :
    atob t = (b64DecodeChars (stripPad (t.data.filter (fun c => !isB64Ws c)))).map
      (fun bs => String.mk (bs.map Char.ofNat)) := rfl

theorem atob_btoa (s : String) (h : latin1Str s = true) :
    ∃ t, btoa s = some t ∧ atob t = some s := by
  have hall : s.data.all (fun c => c.toNat < 256) = true := h
  have hb : ∀ b ∈ s.data.map Char.toNat, b < 256 := by
    intro b hbm
    obtain ⟨c, hc, rfl⟩ := List.mem_map.mp hbm
    exact of_decide_eq_true (List.all_eq_true.mp hall c hc)
  refine ⟨String.mk (btoaBytes (s.data.map Char.toNat)), ?_, ?_⟩
  · unfold btoa
    rw [if_pos hall]
  · rw [atob_eq]
    have hdata : (String.mk (btoaBytes (s.data.map Char.toNat))).data =
        btoaBytes (s.data.map Char.toNat) := rfl
    rw [hdata, filter_ws_btoaBytes _ hb, stripPad_btoaBytes _ hb,
      b64DecodeChars_btoaRaw _ hb]
    simp only [Option.map_some', Option.some.injEq, List.map_map]
    have hmap : s.data.map (Char.ofNat ∘ Char.toNat) = s.data := by
      rw [show Char.ofNat ∘ Char.toNat = id from funext (fun c => Char.ofNat_toNat c),
        List.map_id]
    rw [hmap]

/-! ## JSON printer/parser round-trip lemmas -/

theorem hexVal_hexDigit : ∀ m < 16, hexVal (hexDigit m) = some m := by decide

theorem parseStrAux_quote : ∀ (l : List Char) (rest : List Char),
    parseStrAux ((l.map quoteChar).flatten ++ ('"' :: rest)) = some (l, rest)
  | [], rest => by
    simp only [List.map_nil, List.flatten_nil, List.nil_append]
    rw [parseStrAux.eq_def]
    simp
  | c :: l, rest => by
    have ih := parseStrAux_quote l rest
    simp only [List.map_cons, List.flatten_cons, List.append_assoc]
    by_cases h1 : c = '"'
    · subst h1
      have hq : quoteChar '"' = ['\\', '"'] := by simp [quoteChar]
      rw [hq, List.cons_append, List.cons_append, List.nil_append, parseStrAux.eq_def]
      simp [ih]
    · by_cases h2 : c = '\\'
      · subst h2
        have hq : quoteChar '\\' = ['\\', '\\'] := by simp [quoteChar]
        rw [hq, List.cons_append, List.cons_append, List.nil_append, parseStrAux.eq_def]
        simp [ih]
      · by_cases h3 : c.toNat = 8
        · have hc : Char.ofNat 8 = c := by rw [← h3, Char.ofNat_toNat]
          have hq : quoteChar c = ['\\', 'b'] := by simp [quoteChar, h1, h2, h3]
          rw [hq, List.cons_append, List.cons_append, List.nil_append, parseStrAux.eq_def]
          simp [ih]
          exact hc
        · by_cases h4 : c.toNat = 9
          · have hc : Char.ofNat 9 = c := by rw [← h4, Char.ofNat_toNat]
            have hq : quoteChar c = ['\\', 't'] := by simp [quoteChar, h1, h2, h3, h4]
            rw [hq, List.cons_append, List.cons_append, List.nil_append, parseStrAux.eq_def]
            simp [ih]
            exact hc
          · by_cases h5 : c.toNat = 10
            · have hc : Char.ofNat 10 = c := by rw [← h5, Char.ofNat_toNat]
              have hq : quoteChar c = ['\\', 'n'] := by simp [quoteChar, h1, h2, h3, h4, h5]
              rw [hq, List.cons_append, List.cons_append, List.nil_append, parseStrAux.eq_def]
              simp [ih]
              exact hc
            · by_cases h6 : c.toNat = 12
              · have hc : Char.ofNat 12 = c := by rw [← h6, Char.ofNat_toNat]
                have hq : quoteChar c = ['\\', 'f'] := by
                  simp [quoteChar, h1, h2, h3, h4, h5, h6]
                rw [hq, List.cons_append, List.cons_append, List.nil_append, parseStrAux.eq_def]
                simp [ih]
                exact hc
              · by_cases h7 : c.toNat = 13
                · have hc : Char.ofNat 13 = c := by rw [← h7, Char.ofNat_toNat]
                  have hq : quoteChar c = ['\\', 'r'] := by
                    simp [quoteChar, h1, h2, h3, h4, h5, h6, h7]
                  rw [hq, List.cons_append, List.cons_append, List.nil_append,
                    parseStrAux.eq_def]
                  simp [ih]
                  exact hc
                · by_cases h8 : c.toNat < 32
                  · have hd1 := hexVal_hexDigit (c.toNat / 16) (by omega)
                    have hd2 := hexVal_hexDigit (c.toNat % 16) (by omega)
                    have hc : Char.ofNat (c.toNat / 16 * 16 + c.toNat % 16) = c := by
                      rw [show c.toNat / 16 * 16 + c.toNat % 16 = c.toNat by omega,
                        Char.ofNat_toNat]
                    have hq : quoteChar c =
                        ['\\', 'u', '0', '0', hexDigit (c.toNat / 16), hexDigit (c.toNat % 16)] := by
                      simp [quoteChar, h1, h2, h3, h4, h5, h6, h7, h8]
                    rw [hq, List.cons_append, List.cons_append, List.cons_append,
                      List.cons_append, List.cons_append, List.cons_append, List.nil_append,
                      parseStrAux.eq_def]
                    simp [ih, hd1, hd2, show hexVal '0' = some 0 from by decide, hc]
                  · have hq : quoteChar c = [c] := by
                      simp [quoteChar, h1, h2, h3, h4, h5, h6, h7, h8]
                    rw [hq, List.cons_append, List.nil_append, parseStrAux.eq_def]
                    simp [h1, h2, h8, ih]

theorem parseStrAux_quoteString (s : String) (rest : List Char) :
    parseStrAux (((s.data.map quoteChar).flatten ++ ['"']) ++ rest) = some (s.data, rest) := by
  rw [List.append_assoc, List.singleton_append]
  exact parseStrAux_quote s.data rest

theorem skipWs_cons (c : Char) (r : List Char)
    (h : (c.toNat = 32 || c.toNat = 9 || c.toNat = 10 || c.toNat = 13) = false) :
    skipWs (c :: r) = c :: r := by
  rw [skipWs.eq_def]
  simp [h]

theorem skipWs_quoteString (s : String) (r : List Char) :
    skipWs (quoteString s ++ r) = quoteString s ++ r := by
  have hshape : quoteString s ++ r =
      '"' :: (((s.data.map quoteChar).flatten ++ ['"']) ++ r) := by
    simp [quoteString]
  rw [hshape, skipWs_cons _ _ (by decide)]

theorem parseV_string (fuel : Nat) (s : String) (rest : List Char) :
    parseV (fuel + 1) (quoteString s ++ rest) = some (.str s, rest) := by
  have hshape : quoteString s ++ rest =
      '"' :: (((s.data.map quoteChar).flatten ++ ['"']) ++ rest) := by
    simp [quoteString]
  rw [hshape, parseV.eq_def]
  simp
  exact ⟨s.data, parseStrAux_quote s.data rest, rfl⟩

theorem membersChars_head : ∀ (kv : String × String) (kvs : List (String × String)),
    ∃ X, membersChars (kv :: kvs) = '"' :: X
  | kv, [] =>
    ⟨((kv.1.data.map quoteChar).flatten ++ ['"']) ++ (':' :: quoteString kv.2),
      by simp [membersChars, memberChars, quoteString]⟩
  | kv, kv2 :: kvs =>
    ⟨((kv.1.data.map quoteChar).flatten ++ ['"']) ++
        (':' :: (quoteString kv.2 ++ (',' :: membersChars (kv2 :: kvs)))),
      by simp [membersChars, memberChars, quoteString]⟩

theorem parseMembers_step (f : Nat) (kv : String × String) (tail : List Char) :
    parseMembers (f + 2) (memberChars kv ++ tail) =
      (match skipWs tail with
       | d2 :: r4 =>
         if d2 = ',' then
           (parseMembers (f + 1) (skipWs r4)).map
             (fun p => ((kv.1, Json.str kv.2) :: p.1, p.2))
         else if d2 = rbrace then some ([(kv.1, Json.str kv.2)], r4)
         else none
       | [] => none) := by
  have hshape : memberChars kv ++ tail =
      '"' :: (((kv.1.data.map quoteChar).flatten ++ ['"']) ++
        (':' :: (quoteString kv.2 ++ tail))) := by
    simp [memberChars, quoteString]
  rw [hshape, parseMembers.eq_def]
  simp only [List.append_assoc, List.singleton_append]
  rw [parseStrAux_quote kv.1.data (':' :: (quoteString kv.2 ++ tail))]
  simp only [skipWs_cons ':' _ (by decide)]
  rw [skipWs_quoteString, parseV_string f kv.2 tail]
  simp

theorem parseMembers_members : ∀ (kvs : List (String × String)) (f : Nat) (rest : List Char),
    kvs ≠ [] → kvs.length ≤ f + 1 →
    parseMembers (f + 2) (membersChars kvs ++ (rbrace :: rest)) =
      some (kvs.map (fun kv => (kv.1, Json.str kv.2)), rest)
  | [], _, _, h, _ => absurd rfl h
  | [kv], f, rest, _, _ => by
    have hne : ¬(rbrace = ',') := by decide
    rw [show membersChars [kv] = memberChars kv from rfl,
      parseMembers_step f kv (rbrace :: rest),
      skipWs_cons rbrace _ (by decide)]
    simp [hne]
  | kv :: kv2 :: kvs, f, rest, _, hf => by
    obtain ⟨f2, rfl⟩ : ∃ f2, f = f2 + 1 :=
      ⟨f - 1, by simp [List.length_cons] at hf; omega⟩
    have hshape : membersChars (kv :: kv2 :: kvs) ++ (rbrace :: rest) =
        memberChars kv ++ (',' :: (membersChars (kv2 :: kvs) ++ (rbrace :: rest))) := by
      simp [membersChars]
    have hsw : skipWs (membersChars (kv2 :: kvs) ++ (rbrace :: rest)) =
        membersChars (kv2 :: kvs) ++ (rbrace :: rest) := by
      obtain ⟨X, hX⟩ := membersChars_head kv2 kvs
      rw [hX, List.cons_append]
      exact skipWs_cons _ _ (by decide)
    rw [hshape, parseMembers_step (f2 + 1) kv
      (',' :: (membersChars (kv2 :: kvs) ++ (rbrace :: rest))),
      skipWs_cons ',' _ (by decide)]
    simp only [if_pos rfl, hsw]
    rw [show (f2 + 1 + 1 : Nat) = f2 + 2 from rfl,
      parseMembers_members (kv2 :: kvs) f2 rest (by simp)
        (by simp [List.length_cons] at hf ⊢; omega)]
    simp

theorem quoteString_len (s : String) : 2 ≤ (quoteString s).length := by
  simp [quoteString]

theorem membersChars_len : ∀ kvs : List (String × String),
    kvs.length ≤ (membersChars kvs).length
  | [] => by simp [membersChars]
  | [kv] => by
    simp only [membersChars, memberChars, List.length_append, List.length_cons,
      List.length_singleton, List.length_nil]
    omega
  | kv :: kv2 :: kvs => by
    have ih := membersChars_len (kv2 :: kvs)
    simp only [membersChars, memberChars, List.length_append, List.length_cons] at ih ⊢
    omega

theorem parseJson_stringifySession (s : SessionData) :
    parseJson (stringifySession s) = some (sessionJson s) := by
  have hdata : (stringifySession s).data =
      lbrace :: (membersChars (sessionFields s) ++ [rbrace]) := rfl
  unfold parseJson
  rw [hdata, skipWs_cons lbrace _ (by decide)]
  rw [show (lbrace :: (membersChars (sessionFields s) ++ [rbrace])).length =
      (membersChars (sessionFields s)).length + 2 by simp]
  rw [parseV.eq_def]
  have hlb1 : ¬(lbrace = 'n') := by decide
  have hlb2 : ¬(lbrace = 't') := by decide
  have hlb3 : ¬(lbrace = 'f') := by decide
  have hlb4 : ¬(lbrace = '"') := by decide
  simp only [hlb1, hlb2, hlb3, hlb4, if_false, if_pos rfl, reduceIte]
  cases hkvs : sessionFields s with
  | nil =>
    rw [show membersChars [] = [] from rfl, List.nil_append,
      skipWs_cons rbrace _ (by decide)]
    simp [sessionJson, hkvs, show skipWs [] = [] from by rw [skipWs.eq_def]]
  | cons kv kvs =>
    obtain ⟨X, hX⟩ := membersChars_head kv kvs
    rw [hX, List.cons_append, skipWs_cons '"' _ (by decide)]
    have hq : ¬('"' = rbrace) := by decide
    simp only [hq, if_false, reduceIte]
    rw [← List.cons_append, ← hX]
    rw [parseMembers_members (kv :: kvs) (membersChars (kv :: kvs)).length []
      (by simp) (Nat.le_succ_of_le (membersChars_len _))]
    simp [sessionJson, hkvs, show skipWs [] = [] from by rw [skipWs.eq_def]]

/-- Witness for C4: the defaults evaluated on concrete nodes. -/

theorem normalizeNode_defaults_witness :
    ((normalizeNode bareNode).author = "unknown" ∧
      (normalizeNode bareNode).authorAvatar = "") ∧
    (normalizeNode bareNode).branch = "unknown" ∧
    (normalizeNode bareNode).reviewDecision = "" ∧
    (normalizeNode bareNode).statusState = "none" ∧
    (normalizeNode rollupNode).statusState = toLowerStr "FAILURE" :=
  ⟨(normalizeNode_defaults bareNode).1 rfl,
   (normalizeNode_defaults bareNode).2.1 (Or.inl rfl),
   (normalizeNode_defaults bareNode).2.2.1 rfl,
   (normalizeNode_defaults bareNode).2.2.2.1 rfl,
   (normalizeNode_defaults rollupNode).2.2.2.2 "FAILURE" rfl (by decide)⟩

theorem hexDigit_lt256 : ∀ m < 16, (hexDigit m).toNat < 256 := by decide

theorem quoteChar_lt256 (d : Char) (hd : d.toNat < 256) :
    ∀ c ∈ quoteChar d, c.toNat < 256 := by
  intro c hc
  unfold quoteChar at hc
  split_ifs at hc with h1 h2 h3 h4 h5 h6 h7 h8
  · simp at hc; rcases hc with rfl | rfl <;> decide
  · simp at hc; subst hc; decide
  · simp at hc; rcases hc with rfl | rfl <;> decide
  · simp at hc; rcases hc with rfl | rfl <;> decide
  · simp at hc; rcases hc with rfl | rfl <;> decide
  · simp at hc; rcases hc with rfl | rfl <;> decide
  · simp at hc; rcases hc with rfl | rfl <;> decide
  · fin_cases hc
    · decide
    · decide
    · decide
    · decide
    · exact hexDigit_lt256 (d.toNat / 16) (by omega)
    · exact hexDigit_lt256 (d.toNat % 16) (by omega)
  · simp at hc; subst hc; exact hd

theorem mem_quoteString_lt256 (t : String) (ht : latin1Str t = true) :
    ∀ c ∈ quoteString t, c.toNat < 256 := by
  intro c hc
  unfold quoteString at hc
  rcases List.mem_cons.mp hc with rfl | hc
  · decide
  rcases List.mem_append.mp hc with hc | hc
  · obtain ⟨l, hl, hcl⟩ := List.mem_flatten.mp hc
    obtain ⟨d, hd, rfl⟩ := List.mem_map.mp hl
    have hd256 : d.toNat < 256 := of_decide_eq_true (List.all_eq_true.mp ht d hd)
    exact quoteChar_lt256 d hd256 c hcl
  · simp at hc; subst hc; decide

theorem mem_membersChars_lt256 : ∀ (kvs : List (String × String)),
    (∀ kv ∈ kvs, latin1Str kv.1 = true ∧ latin1Str kv.2 = true) →
    ∀ c ∈ membersChars kvs, c.toNat < 256
  | [], _, c, hc => absurd hc (by simp [membersChars])
  | [kv], hall, c, hc => by
    obtain ⟨h1, h2⟩ := hall kv (by simp)
    rw [show membersChars [kv] = memberChars kv from rfl] at hc
    unfold memberChars at hc
    rcases List.mem_append.mp hc with hc | hc
    · exact mem_quoteString_lt256 kv.1 h1 c hc
    · rcases List.mem_cons.mp hc with rfl | hc
      · decide
      · exact mem_quoteString_lt256 kv.2 h2 c hc
  | kv :: kv2 :: kvs, hall, c, hc => by
    obtain ⟨h1, h2⟩ := hall kv (by simp)
    rw [show membersChars (kv :: kv2 :: kvs) =
        memberChars kv ++ (',' :: membersChars (kv2 :: kvs)) from by simp [membersChars]] at hc
    rcases List.mem_append.mp hc with hc | hc
    · unfold memberChars at hc
      rcases List.mem_append.mp hc with hc | hc
      · exact mem_quoteString_lt256 kv.1 h1 c hc
      · rcases List.mem_cons.mp hc with rfl | hc
        · decide
        · exact mem_quoteString_lt256 kv.2 h2 c hc
    · rcases List.mem_cons.mp hc with rfl | hc
      · decide
      · exact mem_membersChars_lt256 (kv2 :: kvs)
          (fun kv h => hall kv (List.mem_cons_of_mem _ h)) c hc

theorem sessionFields_key (s : SessionData) :
    ∀ kv ∈ sessionFields s, latin1Str kv.1 = true := by
  intro kv hkv
  rcases s with ⟨a, l, v⟩
  unfold sessionFields at hkv
  rcases List.mem_append.mp hkv with h1 | h1
  · rcases List.mem_append.mp h1 with h2 | h2
    · cases a with
      | none => simp at h2
      | some t =>
        simp at h2
        subst h2
        show latin1Str "accessToken" = true
        decide
    · cases l with
      | none => simp at h2
      | some t =>
        simp at h2
        subst h2
        show latin1Str "login" = true
        decide
  · cases v with
    | none => simp at h1
    | some t =>
      simp at h1
      subst h1
      show latin1Str "avatarUrl" = true
      decide

theorem sessionFields_latin1 (s : SessionData) (h : latin1Session s = true) :
    ∀ kv ∈ sessionFields s, latin1Str kv.1 = true ∧ latin1Str kv.2 = true :=
  fun kv hkv => ⟨sessionFields_key s kv hkv, List.all_eq_true.mp h kv hkv⟩

theorem latin1_stringify (s : SessionData) (h : latin1Session s = true) :
    latin1Str (stringifySession s) = true := by
  have hall := sessionFields_latin1 s h
  unfold latin1Str
  rw [List.all_eq_true]
  intro c hc
  rw [show (stringifySession s).data =
      lbrace :: (membersChars (sessionFields s) ++ [rbrace]) from rfl] at hc
  simp only [decide_eq_true_eq]
  rcases List.mem_cons.mp hc with rfl | hc
  · decide
  rcases List.mem_append.mp hc with hc | hc
  · exact mem_membersChars_lt256 (sessionFields s) hall c hc
  · simp at hc; subst hc; decide

/-! ## Claim theorems for the session codec and the auth callback -/

/-- C6 (amended): for every session whose present field values contain only
code points up to `U+00FF` (the domain on which `btoa` does not throw),
`decodeSession` of `encodeSession` recovers exactly the session object —
the JSON object with the session's present fields, in order.  The amendment
restricts the value alphabet: on a field with a character above `U+00FF`,
`encodeSession` itself throws (see the counterexample). -/
theorem decodeSession_encodeSession (s : SessionData) (h : latin1Session s = true) :
    ∃ t, encodeSession s = some t ∧ decodeSession t = sessionJson s := by
  obtain ⟨t, hb, ha⟩ := atob_btoa (stringifySession s) (latin1_stringify s h)
  refine ⟨t, hb, ?_⟩
  unfold decodeSession
  rw [ha]
  simp [parseJson_stringifySession]

/-- Counterexample for C6 as stated: on the session whose login is `"€"`
(U+20AC), `encodeSession` throws (`btoa` range error), so the round trip
cannot return the session. -/
theorem decodeSession_encodeSession_counterexample :
    encodeSession sessionEuro = none ∧
      ¬∃ t, encodeSession sessionEuro = some t ∧ decodeSession t = sessionJson sessionEuro := by
  have h : encodeSession sessionEuro = none := by decide
  exact ⟨h, fun ⟨t, ht, _⟩ => Option.noConfusion (h ▸ ht)⟩

/-- Witness for C6: the empty session and a realistic Latin-1 session round-trip. -/
theorem decodeSession_encodeSession_witness :
    (∃ t, encodeSession ⟨none, none, none⟩ = some t ∧
      decodeSession t = sessionJson ⟨none, none, none⟩) ∧
    (∃ t, encodeSession sessionW = some t ∧ decodeSession t = sessionJson sessionW) :=
  ⟨decodeSession_encodeSession ⟨none, none, none⟩ (by decide),
   decodeSession_encodeSession sessionW (by decide)⟩

/-- C7 (amended): `encodeSession` succeeds (does not throw) on every session
whose present field values contain only code points up to `U+00FF`.  The
amendment excludes values with characters above `U+00FF`, on which `btoa`
throws (see the counterexample). -/
theorem encodeSession_no_throw (s : SessionData) (h : latin1Session s = true) :
    (encodeSession s).isSome = true := by
  obtain ⟨t, hb, _⟩ := atob_btoa (stringifySession s) (latin1_stringify s h)
  unfold encodeSession
  rw [hb]
  rfl

/-- Counterexample for C7 as stated: a well-formed session whose access token
is `"→"` (U+2192) makes `encodeSession` throw. -/
theorem encodeSession_no_throw_counterexample :
    (encodeSession sessionArrow).isSome = false := by decide

/-- Witness for C7. -/
theorem encodeSession_no_throw_witness : (encodeSession sessionW7).isSome = true :=
  encodeSession_no_throw sessionW7 (by decide)

/-- C8 (amended): `decodeSession` is total (the catch converts every thrown
error), and on every input whose base64 decoding or JSON parsing fails it
returns the empty record.  The amendment narrows the claim: an input that IS
valid base64 of valid JSON is returned as parsed even when it does not
conform to the session shape (see the counterexample). -/
theorem decodeSession_malformed (c : String)
    (h : ∀ s, atob c = some s → parseJson s = none) :
    decodeSession c = emptyJson := by
  unfold decodeSession
  cases ha : atob c with
  | none => rfl
  | some s => simp [h s ha]

/-- Counterexample for C8 as stated: `"Ingi"` is the base64 of the JSON text
`"x"` — not a conforming session encoding — yet `decodeSession` returns the
JSON string `"x"`, not the empty record. -/
theorem decodeSession_malformed_counterexample :
    decodeSession "Ingi" = Json.str "x" ∧ decodeSession "Ingi" ≠ emptyJson :=
  ⟨rfl, fun h => Json.noConfusion (show Json.str "x" = Json.obj [] from h)⟩

/-- Witness for C8: an invalid base64 input decodes to the empty record. -/
theorem decodeSession_malformed_witness : decodeSession "%" = emptyJson :=
  decodeSession_malformed "%"
    (fun s hs => Option.noConfusion ((show atob "%" = none from by decide) ▸ hs))

/-- C9: when the callback carries an authorization code but the token
exchange response has no usable `access_token` (for example the empty object),
the loader redirects to a URL containing `error=token_failed` and sets no
session cookie. -/
theorem authCallback_token_failed (code : String) (hc : jsTruthy (some code) = true)
    (tokenData : TokenResp) (ht : jsTruthy tokenData.access_token = false)
    (user : UserResp) :
    authCallbackLoader (some code) tokenData user =
      some ⟨"/?" ++ "error=token_failed", none⟩ := by
  unfold authCallbackLoader
  rw [hc, ht]
  simp

/-- Witness for C9: the `{}` token response with a present code. -/
theorem authCallback_token_failed_witness :
    authCallbackLoader (some "abc") ⟨none⟩ ⟨none, none⟩ =
      some ⟨"/?" ++ "error=token_failed", none⟩ :=
  authCallback_token_failed "abc" (by decide) ⟨none⟩ (by decide) ⟨none, none⟩

end PRDash
